import Mathlib

/-!
Verification development for the serial expect-style shell driver
(`ShellExecutor` in `test_uart5_tool/shell_executor.py`).

The executor is embedded shallowly: the byte stream is a `List Char`, the
pyserial port is a state type `σ` together with the three operations the
executor calls on it (`read`, `write`, `reset_input_buffer`), and the
time-bounded polling loops are given an explicit fuel argument, one unit of
fuel per loop iteration (each iteration of the Python loops takes a bounded,
positive amount of real time, so a time window corresponds to a finite
iteration budget).  The regular expressions `PROMPT_REGEX`, `LOGIN_REGEX`,
`PASSWORD_REGEX` are embedded as executable matchers with Python `re`
semantics (`(?m)` line anchoring, `\s` whitespace, `(?i)` case folding over
ASCII).
-/

namespace Uart5

/-- Decoded text of the serial byte stream. -/
abbrev Chars := List Char

/-- Python's whitespace class (regex `\s`, `str.strip`) over the ASCII range
the driver sees. -/
def isPySpace (c : Char) : Bool :=
  c = ' ' || c = '\t' || c = '\n' || c = '\r' || c = '\x0b' || c = '\x0c'

/-- The final character class `[#$]` of `PROMPT_REGEX`. -/
def isPromptEnd (c : Char) : Bool := c = '#' || c = '$'

/-- Tail of `PROMPT_REGEX` after the `[#$]`: `\s*$` in multiline mode —
some whitespace, then either the end of the string or a newline. -/
def promptTail : Chars → Bool
  | [] => true
  | c :: rest => if c = '\n' then true else if isPySpace c then promptTail rest else false

/-- `PROMPT_REGEX = (?m)^[^\n\r]*[#$]\s*$` matched at the current position
(assumed to be a line start, where `(?m)^` holds). -/
def promptLineFrom : Chars → Bool
  | [] => false
  | c :: rest =>
    (isPromptEnd c && promptTail rest) ||
    (c ≠ '\n' && c ≠ '\r' && promptLineFrom rest)

/-- Try an anchored matcher at every position following a newline
(the line starts other than position 0). -/
def searchAfterNl (f : Chars → Bool) : Chars → Bool
  | [] => false
  | c :: rest => (c = '\n' && f rest) || searchAfterNl f rest

/-- `re.search` of a `(?m)^`-anchored pattern: try every line start. -/
def lineSearch (f : Chars → Bool) (s : Chars) : Bool :=
  f s || searchAfterNl f s

/-- `prompt_re.search s`. -/
def promptSearch (s : Chars) : Bool := lineSearch promptLineFrom s

/-- `prompt_re.match s`: anchored at position 0 (where `(?m)^` holds). -/
def promptMatch (s : Chars) : Bool := promptLineFrom s

/-- Case-insensitive literal word match (the word is given in lowercase);
returns the rest of the input on success. -/
def ciWord : Chars → Chars → Option Chars
  | [], s => some s
  | _ :: _, [] => none
  | p :: ps, c :: cs => if c.toLower = p then ciWord ps cs else none

/-- `(?im)^\s*(w₁|w₂|…)\s*:\s*$` matched at a line start: leading whitespace,
one of the label words (case-insensitively), whitespace, a colon, then
`\s*$` as in the prompt pattern.  The character classes involved are
disjoint, so greedy scanning needs no backtracking. -/
def labelLineFrom (words : List Chars) (s : Chars) : Bool :=
  let s1 := s.dropWhile isPySpace
  words.any fun w =>
    match ciWord w s1 with
    | none => false
    | some r =>
      match r.dropWhile isPySpace with
      | ':' :: r2 => promptTail r2
      | _ => false

/-- `login_re.search s` for `LOGIN_REGEX = (?im)^\s*(login|username)\s*:\s*$`. -/
def loginSearch (s : Chars) : Bool :=
  lineSearch (labelLineFrom ["login".toList, "username".toList]) s

/-- `pass_re.search s` for `PASSWORD_REGEX = (?im)^\s*password\s*:\s*$`. -/
def passSearch (s : Chars) : Bool :=
  lineSearch (labelLineFrom ["password".toList]) s

/-- Case-insensitive literal containment test at position 0. -/
def ciStartsWith (p s : Chars) : Bool := (ciWord p s).isSome

/-- `re.search(pat, s, flags=re.I)` for a literal pattern `pat` (lowercase). -/
def containsCI (p : Chars) : Chars → Bool
  | [] => ciStartsWith p []
  | s@(_ :: rest) => ciStartsWith p s || containsCI p rest

/-- Python's `sub in s` (case-sensitive substring containment). -/
def containsSub (p : Chars) : Chars → Bool
  | [] => p.isPrefixOf []
  | s@(_ :: rest) => p.isPrefixOf s || containsSub p rest

/-- `re.search("activate this console", buf, flags=re.I)`. -/
def activateSearch (s : Chars) : Bool := containsCI "activate this console".toList s

/-- Python `str.strip()`. -/
def pyStrip (s : Chars) : Chars :=
  ((s.dropWhile isPySpace).reverse.dropWhile isPySpace).reverse

/-- Python `str.split("\n")`: the (always nonempty) list of newline-free
segments, keeping empty segments. -/
def splitNl : Chars → List Chars
  | [] => [[]]
  | c :: rest =>
    if c = '\n' then [] :: splitNl rest
    else
      match splitNl rest with
      | l :: ls => (c :: l) :: ls
      | [] => [[c]]

/-- Python `"\n".join`. -/
def joinNl : List Chars → Chars
  | [] => []
  | [l] => l
  | l :: ls => l ++ '\n' :: joinNl ls

/-- CSI parameter byte: the regex class from `0` to `?` (0x30 to 0x3F). -/
def isCSIParam (c : Char) : Bool := decide ('0' ≤ c) && decide (c ≤ '?')

/-- CSI intermediate byte: the regex class from space to `/` (0x20 to 0x2F). -/
def isCSIInter (c : Char) : Bool := decide (' ' ≤ c) && decide (c ≤ '/')

/-- CSI final byte: the regex class from `@` to `~` (0x40 to 0x7E). -/
def isCSIFinal (c : Char) : Bool := decide ('@' ≤ c) && decide (c ≤ '~')

/-- Consume the body of a CSI escape sequence after `ESC [`: some parameter
bytes, some intermediate bytes, and one final byte (the three classes are
disjoint, so greedy scanning is exact). -/
def consumeCSI (s : Chars) : Option Chars :=
  match (s.dropWhile isCSIParam).dropWhile isCSIInter with
  | c :: rest => if isCSIFinal c then some rest else none
  | [] => none

theorem length_dropWhile_le' (p : Char → Bool) (l : Chars) :
    (l.dropWhile p).length ≤ l.length :=
  (List.dropWhile_sublist p).length_le

theorem consumeCSI_length {s r : Chars} (h : consumeCSI s = some r) :
    r.length < s.length := by
  unfold consumeCSI at h
  have h1 : ((s.dropWhile isCSIParam).dropWhile isCSIInter).length ≤ s.length :=
    le_trans (length_dropWhile_le' _ _) (length_dropWhile_le' _ _)
  cases hc : (s.dropWhile isCSIParam).dropWhile isCSIInter with
  | nil => rw [hc] at h; simp at h
  | cons c rest =>
    rw [hc] at h
    cases hf : isCSIFinal c
    · simp [hf] at h
    · simp [hf] at h
      subst h
      rw [hc] at h1
      simp at h1
      omega

/-- Recursion worker for `stripAnsi`.  Every step consumes at least one
character of the remaining input (`consumeCSI` consumes at least the final
byte), so `fuel = s.length` never runs out; structural recursion on the
fuel keeps the function kernel-computable. -/
def stripAnsiFuel : Nat → Chars → Chars
  | _, [] => []
  | 0, s => s
  | n + 1, c :: rest =>
    if c = '\x1b' then
      match rest with
      | '[' :: r2 =>
        match consumeCSI r2 with
        | some r3 => stripAnsiFuel n r3
        | none => c :: stripAnsiFuel n rest
      | _ => c :: stripAnsiFuel n rest
    else c :: stripAnsiFuel n rest

/-- `re.sub` with the CSI pattern (`ESC`, `[`, parameter bytes, intermediate
bytes, one final byte) and empty replacement: remove every CSI escape
sequence; an `ESC` not beginning a complete sequence is left in place. -/
def stripAnsi (s : Chars) : Chars := stripAnsiFuel s.length s

/-- The pyserial port interface, as `ShellExecutor` uses it: a state type with
a chunked non-blocking read (`ser.read(READ_CHUNK)` decoded, returning `""`
when nothing is available), a write, and `reset_input_buffer`. -/
structure PortOps (σ : Type) where
  readSome : σ → Chars × σ
  write : σ → Chars → σ
  resetInput : σ → σ

/-- `ShellExecutor` state: the optional open port and the credentials. -/
structure ShellExecutor (σ : Type) where
  ser : Option σ
  username : Chars
  password : Chars
deriving DecidableEq

/-- `_drain`: a bounded loop of reads accumulating everything that arrives in
the window; one unit of fuel per read attempt.  (The different drain
durations in the source only scale the real-time window.) -/
def drain {σ : Type} (P : PortOps σ) : Nat → σ → Chars × σ
  | 0, s => ([], s)
  | n + 1, s =>
    let (c, s1) := P.readSome s
    let (out, s2) := drain P n s1
    (c ++ out, s2)

/-- The read loop of `run`: read chunks, appending nonempty ones to the
collected text, until the prompt pattern matches the collected text or the
time budget is exhausted.  Returns `(port, collected, timedOut)`. -/
def collectUntilPrompt {σ : Type} (P : PortOps σ) : Nat → σ → Chars → σ × Chars × Bool
  | 0, s, acc => (s, acc, true)
  | n + 1, s, acc =>
    let (chunk, s1) := P.readSome s
    if chunk.isEmpty then collectUntilPrompt P n s1 acc
    else
      let acc1 := acc ++ chunk
      if promptSearch acc1 then (s1, acc1, false)
      else collectUntilPrompt P n s1 acc1

/-- The post-processing of `run` (`cmd` is already stripped): remove CSI
escapes and carriage returns, split on newlines, drop a first line whose
stripped text equals the command (echo suppression), drop trailing
prompt-matching lines, rejoin and strip. -/
def sanitize (cmd collected : Chars) : Chars :=
  let text := (stripAnsi collected).filter (fun c => c ≠ '\r')
  let lines := splitNl text
  let lines1 :=
    match lines with
    | l0 :: rest => if pyStrip l0 = cmd then rest else lines
    | [] => lines
  let lines2 := (lines1.reverse.dropWhile fun l => promptMatch (l ++ ['\n'])).reverse
  pyStrip (joinNl lines2)

/-- `ShellExecutor.run`: send one command on the open session and wait for the
prompt.  The mutual-exclusion lock of the source is elided — the model
executes the critical section atomically.  Returns `((ok, text), executor)`;
the loop's exit with fuel exhausted models `time.time() >= end`. -/
def run {σ : Type} (P : PortOps σ) (ex : ShellExecutor σ) (cmd : Chars) (fuel : Nat) :
    (Bool × Chars) × ShellExecutor σ :=
  match ex.ser with
  | none => ((false, "Not connected".toList), ex)
  | some port =>
    let c := pyStrip cmd
    if c.isEmpty then ((true, []), ex)
    else
      let port1 := P.resetInput port
      let port2 := P.write port1 (c ++ ['\n'])
      let (port3, collected, timedOut) := collectUntilPrompt P fuel port2 []
      let out := sanitize c collected
      let ex1 : ShellExecutor σ := { ex with ser := some port3 }
      if containsSub "Operation not permitted".toList out ||
         containsSub "Permission denied".toList out then
        ((false, out), ex1)
      else if timedOut && out.isEmpty then
        ((false, "[timeout]".toList), ex1)
      else
        ((true, out), ex1)

/-- One nudge of `ensure_shell`: write a bare newline, drain briefly. -/
def nudge {σ : Type} (P : PortOps σ) (d : Nat) (s : σ) : Chars × σ :=
  drain P d (P.write s ['\n'])

/-- The poll loop of `ensure_shell`: nudge; if the accumulated buffer matches
the prompt pattern, succeed; otherwise answer a login prompt, a password
prompt, and a console-activation banner if the buffer shows them, and
repeat; fail when the overall time budget (one unit of fuel per iteration)
is exhausted. -/
def ensureLoop {σ : Type} (P : PortOps σ) (username password : Chars) (d : Nat) :
    Nat → σ → Chars → (Bool × Chars) × σ
  | 0, s, _ => ((false, "Prompt not detected (timeout).".toList), s)
  | n + 1, s, buf =>
    let (c, s1) := nudge P d s
    let buf1 := buf ++ c
    if promptSearch buf1 then ((true, "Shell prompt detected.".toList), s1)
    else
      let (s2, buf2) :=
        if loginSearch buf1 then
          let s' := P.write s1 (username ++ ['\n'])
          let (c', s'') := drain P d s'
          (s'', buf1 ++ c')
        else (s1, buf1)
      let (s3, buf3) :=
        if passSearch buf2 then
          let s' := P.write s2 (password ++ ['\n'])
          let (c', s'') := drain P d s'
          (s'', buf2 ++ c')
        else (s2, buf2)
      let (s4, buf4) :=
        if activateSearch buf3 then
          let s' := P.write s3 ['\n']
          let (c', s'') := drain P d s'
          (s'', buf3 ++ c')
        else (s3, buf3)
      ensureLoop P username password d n s4 buf4

/-- `ShellExecutor.ensure_shell`: wake the console with two nudges, then run
the poll loop. -/
def ensureShell {σ : Type} (P : PortOps σ) (ex : ShellExecutor σ) (d fuel : Nat) :
    (Bool × Chars) × ShellExecutor σ :=
  match ex.ser with
  | none => ((false, "Not connected".toList), ex)
  | some port =>
    let (c1, p1) := nudge P d port
    let (c2, p2) := nudge P d p1
    let buf := c1 ++ c2
    let (r, p3) := ensureLoop P ex.username ex.password d fuel p2 buf
    (r, { ex with ser := some p3 })

/-- A scripted port: `stale` chunks already arrived (discarded by
`reset_input_buffer`), `input` chunks that arrive later and are delivered
one per read, and the log of writes. -/
structure ScriptPort where
  stale : List Chars
  input : List Chars
  written : List Chars
deriving DecidableEq

def scriptOps : PortOps ScriptPort where
  readSome p :=
    match p.stale with
    | c :: rest => (c, { p with stale := rest })
    | [] =>
      match p.input with
      | c :: rest => (c, { p with input := rest })
      | [] => ([], p)
  write p s := { p with written := p.written ++ [s] }
  resetInput p := { p with stale := [] }

/-- Simulated transport for the bootstrap login flow: it presents a line
matching the login pattern, then — only after the username has been written
— a line matching the password pattern, then — only after the password has
been written — a prompt-matching line.  `stage` 0/2/4 deliver the next line
on the next read; writes of `username + "\n"` and `password + "\n"` advance
the stages; every write is logged. -/
structure LoginSim where
  stage : Nat
  written : List Chars
deriving DecidableEq

def loginSimOps (username password : Chars) : PortOps LoginSim where
  readSome p :=
    if p.stage = 0 then ("login:\n".toList, { p with stage := 1 })
    else if p.stage = 2 then ("password:\n".toList, { p with stage := 3 })
    else if p.stage = 4 then ("root@board:~# ".toList, { p with stage := 5 })
    else ([], p)
  write p s :=
    if p.stage = 1 ∧ s = username ++ ['\n'] then { stage := 2, written := p.written ++ [s] }
    else if p.stage = 3 ∧ s = password ++ ['\n'] then { stage := 4, written := p.written ++ [s] }
    else { p with written := p.written ++ [s] }
  resetInput p := p

/-- A transport that emits a fixed stream of chunks, one per read, regardless
of what is written; every write is logged. -/
structure StreamPort where
  idx : Nat
  written : List Chars
deriving DecidableEq

def streamOps (f : Nat → Chars) : PortOps StreamPort where
  readSome p := (f p.idx, { p with idx := p.idx + 1 })
  write p s := { p with written := p.written ++ [s] }
  resetInput p := p

/-- Concatenation of the first `n` chunks of a stream. -/
def streamConcat (f : Nat → Chars) : Nat → Chars
  | 0 => []
  | n + 1 => streamConcat f n ++ f n

/-- No pattern the bootstrap loop reacts to matches the buffer: no prompt, no
login prompt, no password prompt, no activation banner. -/
def noPatterns (s : Chars) : Bool :=
  !promptSearch s && !loginSearch s && !passSearch s && !activateSearch s

/-- C3: a command attempted without an open session fails fast with the
not-connected failure (the `(false, "Not connected")` result that the
spec abstracts as `NotConnectedError`), for every timeout budget; the
executor state is returned unchanged and no port operation is invoked —
with no open port there is no transport to read from or write to. -/
theorem run_not_connected {σ : Type} (P : PortOps σ) (ex : ShellExecutor σ)
    (cmd : Chars) (fuel : Nat) (h : ex.ser = none) :
    run P ex cmd fuel = ((false, "Not connected".toList), ex) := by
  unfold run
  rw [h]

theorem run_not_connected_witness :
    (⟨none, "root".toList, []⟩ : ShellExecutor ScriptPort).ser = none ∧
    run scriptOps (⟨none, "root".toList, []⟩ : ShellExecutor ScriptPort) "ls".toList 5 =
      ((false, "Not connected".toList), ⟨none, "root".toList, []⟩) :=
  ⟨rfl, run_not_connected scriptOps ⟨none, "root".toList, []⟩ "ls".toList 5 rfl⟩

/-- C5: on an open session, an empty or whitespace-only command short-circuits
to `(true, "")` for every timeout budget, leaving the executor (and hence
the port, its write log included) unchanged: no transport I/O happens. -/
theorem run_blank_cmd {σ : Type} (P : PortOps σ) (ex : ShellExecutor σ) (port : σ)
    (cmd : Chars) (fuel : Nat) (hser : ex.ser = some port) (hcmd : pyStrip cmd = []) :
    run P ex cmd fuel = ((true, []), ex) := by
  unfold run
  rw [hser, hcmd]
  rfl

theorem run_blank_cmd_witness :
    pyStrip "   ".toList = [] ∧ pyStrip "".toList = [] ∧
    run scriptOps (⟨some ⟨[], [], []⟩, "root".toList, []⟩ : ShellExecutor ScriptPort)
        "   ".toList 7 = ((true, []), ⟨some ⟨[], [], []⟩, "root".toList, []⟩) ∧
    run scriptOps (⟨some ⟨[], [], []⟩, "root".toList, []⟩ : ShellExecutor ScriptPort)
        "".toList 7 = ((true, []), ⟨some ⟨[], [], []⟩, "root".toList, []⟩) :=
  ⟨by decide, by decide,
   run_blank_cmd scriptOps _ ⟨[], [], []⟩ "   ".toList 7 rfl (by decide),
   run_blank_cmd scriptOps _ ⟨[], [], []⟩ "".toList 7 rfl (by decide)⟩

/-- C10: calling `ensure_shell` with no open session returns
`(false, "Not connected")` immediately for every overall timeout budget
(the result does not depend on the budget, so nothing is awaited), the
executor state is unchanged, no exception is modelled, and no port
operation is invoked. -/
theorem ensureShell_not_connected {σ : Type} (P : PortOps σ) (ex : ShellExecutor σ)
    (d fuel : Nat) (h : ex.ser = none) :
    ensureShell P ex d fuel = ((false, "Not connected".toList), ex) := by
  unfold ensureShell
  rw [h]

theorem ensureShell_not_connected_witness :
    (⟨none, "root".toList, []⟩ : ShellExecutor ScriptPort).ser = none ∧
    ensureShell scriptOps (⟨none, "root".toList, []⟩ : ShellExecutor ScriptPort) 3 1000 =
      ((false, "Not connected".toList), ⟨none, "root".toList, []⟩) :=
  ⟨rfl, ensureShell_not_connected scriptOps ⟨none, "root".toList, []⟩ 3 1000 rfl⟩

/-- Case analysis of the result of `run`: it is the not-connected failure,
the blank-command success, the empty-timeout failure, a failure whose text
contains a permission-denial phrase, or a success whose text contains
neither phrase. -/
theorem run_result_cases {σ : Type} (P : PortOps σ) (ex : ShellExecutor σ)
    (cmd : Chars) (fuel : Nat) :
    (run P ex cmd fuel).1 = (false, "Not connected".toList) ∨
    (run P ex cmd fuel).1 = (true, []) ∨
    (run P ex cmd fuel).1 = (false, "[timeout]".toList) ∨
    (∃ out, (run P ex cmd fuel).1 = (false, out) ∧
      (containsSub "Operation not permitted".toList out ||
       containsSub "Permission denied".toList out) = true) ∨
    (∃ out, (run P ex cmd fuel).1 = (true, out) ∧
      (containsSub "Operation not permitted".toList out ||
       containsSub "Permission denied".toList out) = false) := by
  unfold run
  cases hser : ex.ser with
  | none => exact Or.inl rfl
  | some port =>
    rcases hcol : collectUntilPrompt P fuel (P.write (P.resetInput port) (pyStrip cmd ++ ['\n'])) []
      with ⟨p3, col, tout⟩
    simp only [hcol]
    split
    · exact Or.inr (Or.inl rfl)
    · split
      · rename_i hperm
        exact Or.inr (Or.inr (Or.inr (Or.inl ⟨_, rfl, hperm⟩)))
      · split
        · exact Or.inr (Or.inr (Or.inl rfl))
        · rename_i hperm hto
          refine Or.inr (Or.inr (Or.inr (Or.inr ⟨_, rfl, ?_⟩)))
          simpa using hperm

/-- C4: whenever the post-processed output text returned by `run` contains
"Permission denied" or "Operation not permitted" anywhere, the result is
`ok = false`, even when a valid prompt line followed the output. -/
theorem run_permission_denial {σ : Type} (P : PortOps σ) (ex : ShellExecutor σ)
    (cmd : Chars) (fuel : Nat)
    (h : (containsSub "Operation not permitted".toList (run P ex cmd fuel).1.2 ||
          containsSub "Permission denied".toList (run P ex cmd fuel).1.2) = true) :
    (run P ex cmd fuel).1.1 = false := by
  rcases run_result_cases P ex cmd fuel with h1 | h1 | h1 | ⟨out, h1, _⟩ | ⟨out, h1, h2⟩
  · rw [h1]
  · rw [h1] at h
    exact absurd h (by decide)
  · rw [h1]
  · rw [h1]
  · rw [h1] at h
    simp only at h
    rw [h2] at h
    exact Bool.noConfusion h

theorem run_permission_denial_witness :
    (containsSub "Operation not permitted".toList
        (run scriptOps
          (⟨some ⟨[], ["cat /x\ncat: /x: Permission denied\nroot@b:~# ".toList], []⟩,
            "root".toList, []⟩ : ShellExecutor ScriptPort) "cat /x".toList 3).1.2 ||
     containsSub "Permission denied".toList
        (run scriptOps
          (⟨some ⟨[], ["cat /x\ncat: /x: Permission denied\nroot@b:~# ".toList], []⟩,
            "root".toList, []⟩ : ShellExecutor ScriptPort) "cat /x".toList 3).1.2) = true ∧
    (run scriptOps
        (⟨some ⟨[], ["cat /x\ncat: /x: Permission denied\nroot@b:~# ".toList], []⟩,
          "root".toList, []⟩ : ShellExecutor ScriptPort) "cat /x".toList 3).1.1 = false :=
  ⟨by decide,
   run_permission_denial scriptOps
     (⟨some ⟨[], ["cat /x\ncat: /x: Permission denied\nroot@b:~# ".toList], []⟩,
       "root".toList, []⟩ : ShellExecutor ScriptPort) "cat /x".toList 3 (by decide)⟩

/-- A scripted port with nothing left to deliver makes the read loop spin
(empty reads) until its time budget is exhausted. -/
theorem collect_empty_spins (w : List Chars) :
    ∀ (fuel : Nat) (acc : Chars),
      collectUntilPrompt scriptOps fuel ⟨[], [], w⟩ acc = (⟨[], [], w⟩, acc, true) := by
  intro fuel
  induction fuel with
  | zero => intro acc; rfl
  | succ n ih =>
    intro acc
    simp only [collectUntilPrompt, scriptOps, List.isEmpty_nil, if_true]
    exact ih acc

/-- The read loop on a scripted port collects the scripted chunks in order:
when every chunk is nonempty and no cumulative prefix of the script makes
the prompt pattern match, the loop reads the whole script (one chunk per
iteration), then spins on empty reads until its budget is exhausted. -/
theorem collect_all_chunks (cs : List Chars) :
    ∀ (acc : Chars) (w : List Chars) (k : Nat),
      (∀ c ∈ cs, c ≠ []) →
      (∀ n, promptSearch (acc ++ (cs.take n).flatten) = false) →
      collectUntilPrompt scriptOps (cs.length + k) ⟨[], cs, w⟩ acc =
        (⟨[], [], w⟩, acc ++ cs.flatten, true) := by
  induction cs with
  | nil =>
    intro acc w k _ _
    simp only [List.length_nil, Nat.zero_add, List.flatten_nil, List.append_nil]
    exact collect_empty_spins w k acc
  | cons c cs' ih =>
    intro acc w k hne hp
    have hc : c ≠ [] := hne c (by simp)
    have hcE : c.isEmpty = false := by
      cases c with
      | nil => exact absurd rfl hc
      | cons a l => rfl
    have hps : promptSearch (acc ++ c) = false := by
      have h := hp 1
      rw [List.take_succ_cons, List.take_zero, List.flatten_cons, List.flatten_nil,
        List.append_nil] at h
      exact h
    have hp' : ∀ n, promptSearch ((acc ++ c) ++ (cs'.take n).flatten) = false := by
      intro n
      have h := hp (n + 1)
      rw [List.take_succ_cons, List.flatten_cons, ← List.append_assoc] at h
      exact h
    have hf : (c :: cs').length + k = (cs'.length + k) + 1 := by
      simp
      omega
    rw [hf]
    have hread : scriptOps.readSome ⟨[], c :: cs', w⟩ = (c, ⟨[], cs', w⟩) := rfl
    simp only [collectUntilPrompt, hread, hcE, Bool.false_eq_true, if_false, hps]
    rw [ih (acc ++ c) w k (fun x hx => hne x (by simp [hx])) hp']
    simp [List.append_assoc]

/-- C2 (amended): when the per-command window elapses with the transport
having delivered a stream of chunks no cumulative prefix of which matches
the prompt pattern (and the post-processed text carries no
permission-denial phrase), `run` returns `(false, "[timeout]")` if the
post-processed collected text is empty, and `(true, text)` — success with
the partial text — otherwise. -/
theorem run_timeout_result (st w : List Chars) (cs : List Chars)
    (u pw cmd : Chars) (k : Nat)
    (hstrip : pyStrip cmd = cmd) (hcmd : cmd ≠ [])
    (hne : ∀ c ∈ cs, c ≠ [])
    (H : ((List.range (cs.length + 1)).all
          fun n => !promptSearch ((cs.take n).flatten)) = true)
    (hnp : (containsSub "Operation not permitted".toList (sanitize cmd cs.flatten) ||
            containsSub "Permission denied".toList (sanitize cmd cs.flatten)) = false) :
    (run scriptOps (⟨some ⟨st, cs, w⟩, u, pw⟩ : ShellExecutor ScriptPort) cmd
        (cs.length + k)).1 =
      if (sanitize cmd cs.flatten).isEmpty then (false, "[timeout]".toList)
      else (true, sanitize cmd cs.flatten) := by
  have hp : ∀ n, promptSearch ((cs.take n).flatten) = false := by
    intro n
    by_cases hn : n ≤ cs.length
    · have h := List.all_eq_true.mp H n (List.mem_range.mpr (by omega))
      simpa using h
    · have htake : cs.take n = cs := List.take_of_length_le (by omega)
      have h := List.all_eq_true.mp H cs.length (List.mem_range.mpr (by omega))
      rw [List.take_length] at h
      rw [htake]
      simpa using h
  have hcmdE : cmd.isEmpty = false := by
    cases cmd with
    | nil => exact absurd rfl hcmd
    | cons a l => rfl
  have hcol := collect_all_chunks cs [] (w ++ [cmd ++ ['\n']]) k hne
    (fun n => by rw [List.nil_append]; exact hp n)
  rw [List.nil_append] at hcol
  unfold run
  simp only [hstrip, hcmdE, Bool.false_eq_true, if_false]
  have hreset : scriptOps.resetInput ⟨st, cs, w⟩ = ⟨[], cs, w⟩ := rfl
  have hwrite : scriptOps.write ⟨[], cs, w⟩ (cmd ++ ['\n']) =
      ⟨[], cs, w ++ [cmd ++ ['\n']]⟩ := rfl
  rw [hreset, hwrite, hcol]
  simp only [hnp, Bool.false_eq_true, if_false, Bool.true_and]
  cases hoe : (sanitize cmd cs.flatten).isEmpty with
  | true => simp [hoe]
  | false => simp [hoe]

theorem run_timeout_counterexample :
    promptSearch "partial output".toList = false ∧
    (run scriptOps (⟨some ⟨[], ["partial output".toList], []⟩, "root".toList, []⟩ :
        ShellExecutor ScriptPort) "ls".toList 3).1 = (true, "partial output".toList) := by
  constructor
  · decide
  · decide

theorem run_timeout_result_witness :
    (pyStrip "ls".toList = "ls".toList ∧
     ((List.range 3).all
        fun n => !promptSearch (((["no".toList, "ise".toList] : List Chars).take n).flatten)) =
       true) ∧
    (run scriptOps (⟨some ⟨[], ["no".toList, "ise".toList], []⟩, "root".toList, []⟩ :
        ShellExecutor ScriptPort) "ls".toList 3).1 =
      if (sanitize "ls".toList (["no".toList, "ise".toList] : List Chars).flatten).isEmpty then
        (false, "[timeout]".toList)
      else (true, sanitize "ls".toList (["no".toList, "ise".toList] : List Chars).flatten) :=
  ⟨⟨by decide, by decide⟩,
   run_timeout_result [] [] ["no".toList, "ise".toList] "root".toList [] "ls".toList 1
     (by decide) (by decide) (by decide) (by decide) (by decide)⟩

theorem stripAnsiFuel_eq_self (s : Chars) (h : ∀ x ∈ s, x ≠ '\x1b') :
    ∀ n, stripAnsiFuel n s = s := by
  induction s with
  | nil => intro n; cases n <;> rfl
  | cons c rest ih =>
    intro n
    cases n with
    | zero => rfl
    | succ m =>
      have hc : c ≠ '\x1b' := h c (by simp)
      simp only [stripAnsiFuel, if_neg hc]
      rw [ih (fun x hx => h x (by simp [hx])) m]

/-- Text with no ESC byte is left unchanged by the CSI stripping. -/
theorem stripAnsi_eq_self (s : Chars) (h : ∀ x ∈ s, x ≠ '\x1b') : stripAnsi s = s :=
  stripAnsiFuel_eq_self s h s.length

theorem splitNl_ne_nil (s : Chars) : splitNl s ≠ [] := by
  cases s with
  | nil => simp [splitNl]
  | cons c rest =>
    simp only [splitNl]
    split
    · simp
    · split
      · simp
      · simp

theorem splitNl_append_nl (a b : Chars) :
    splitNl (a ++ '\n' :: b) = splitNl a ++ splitNl b := by
  induction a with
  | nil => simp [splitNl]
  | cons c a' ih =>
    by_cases hc : c = '\n'
    · subst hc
      simp [splitNl, ih]
    · simp only [List.cons_append, splitNl, if_neg hc, List.append_eq]
      rw [ih]
      rcases hsa : splitNl a' with _ | ⟨hd, t⟩
      · exact absurd hsa (splitNl_ne_nil a')
      · simp

theorem splitNl_no_nl (s : Chars) (h : ∀ x ∈ s, x ≠ '\n') : splitNl s = [s] := by
  induction s with
  | nil => rfl
  | cons c rest ih =>
    have hc : c ≠ '\n' := h c (by simp)
    simp only [splitNl, if_neg hc, ih (fun x hx => h x (by simp [hx]))]

theorem joinNl_splitNl (s : Chars) : joinNl (splitNl s) = s := by
  induction s with
  | nil => rfl
  | cons c rest ih =>
    by_cases hc : c = '\n'
    · subst hc
      simp only [splitNl, if_pos rfl]
      rcases hsr : splitNl rest with _ | ⟨hd, t⟩
      · exact absurd hsr (splitNl_ne_nil rest)
      · rw [hsr] at ih
        simp only [joinNl, List.nil_append]
        rw [ih]
    · simp only [splitNl, if_neg hc]
      rcases hsr : splitNl rest with _ | ⟨hd, t⟩
      · exact absurd hsr (splitNl_ne_nil rest)
      · rw [hsr] at ih
        cases t with
        | nil => simp only [joinNl] at ih ⊢; rw [ih]
        | cons t0 ts =>
          simp only [joinNl, List.cons_append] at ih ⊢
          rw [ih]

theorem promptTail_append_nl (t r : Chars) (h : ∀ x ∈ t, x ≠ '\n') :
    promptTail (t ++ '\n' :: r) = promptTail t := by
  induction t with
  | nil => rfl
  | cons c t' ih =>
    have hc : c ≠ '\n' := h c (by simp)
    simp only [List.cons_append, promptTail, if_neg hc]
    cases hsp : isPySpace c
    · rfl
    · simp [ih (fun x hx => h x (by simp [hx]))]

theorem promptLineFrom_append_nl (f r : Chars) (h : ∀ x ∈ f, x ≠ '\n') :
    promptLineFrom (f ++ '\n' :: r) = promptLineFrom f := by
  induction f with
  | nil => rfl
  | cons c f' ih =>
    simp only [List.cons_append, promptLineFrom, List.append_eq]
    rw [promptTail_append_nl f' r (fun x hx => h x (by simp [hx]))]
    rw [ih (fun x hx => h x (by simp [hx]))]

theorem searchAfterNl_of_tail (g : Chars → Bool) (a r : Chars) (hg : g r = true) :
    searchAfterNl g (a ++ '\n' :: r) = true := by
  induction a with
  | nil => simp [searchAfterNl, hg]
  | cons c a' ih => simp [searchAfterNl, ih]

theorem getLastD_append_singleton (l : List Chars) (a d : Chars) :
    (l ++ [a]).getLastD d = a := by
  induction l with
  | nil => rfl
  | cons c l' ih =>
    cases l' with
    | nil => rfl
    | cons c' l'' => simpa using ih

/-- C1 (amended): on an open session, for a transport delivering the echoed
command, the command's output and a trailing prompt line as the single
chunk "<cmd>\n<output>\n<prompt>" — the prompt, as an interactive shell
prints it, not newline-terminated — `run` returns exactly `<output>`:
post-processing strips CSI escapes and carriage returns (absent here by
hypothesis), drops the echoed first line, and drops the trailing
prompt-matching line. -/
theorem run_echo_suppression (st w : List Chars) (u pw cmd output prompt : Chars) (fuel : Nat)
    (hcmd_clean : ∀ x ∈ cmd, x ≠ '\n' ∧ x ≠ '\r' ∧ x ≠ '\x1b')
    (hcmd_strip : pyStrip cmd = cmd) (hcmd_ne : cmd ≠ [])
    (hout_clean : ∀ x ∈ output, x ≠ '\r' ∧ x ≠ '\x1b')
    (hout_strip : pyStrip output = output)
    (hout_last : promptMatch ((splitNl output).getLastD [] ++ ['\n']) = false)
    (hp_clean : ∀ x ∈ prompt, x ≠ '\n' ∧ x ≠ '\r' ∧ x ≠ '\x1b')
    (hp_match : promptMatch (prompt ++ ['\n']) = true) :
    (run scriptOps
      (⟨some ⟨st, [cmd ++ '\n' :: (output ++ '\n' :: prompt)], w⟩, u, pw⟩ :
        ShellExecutor ScriptPort) cmd (fuel + 1)).1.2 = output := by
  have hp_nl : ∀ x ∈ prompt, x ≠ '\n' := fun x hx => (hp_clean x hx).1
  have hpl : promptLineFrom prompt = true := by
    have h1 := promptLineFrom_append_nl prompt [] hp_nl
    rw [← h1]
    exact hp_match
  have hps : promptSearch (cmd ++ '\n' :: (output ++ '\n' :: prompt)) = true := by
    have hassoc : cmd ++ '\n' :: (output ++ '\n' :: prompt) =
        (cmd ++ '\n' :: output) ++ '\n' :: prompt := by
      simp
    rw [hassoc]
    unfold promptSearch lineSearch
    rw [searchAfterNl_of_tail promptLineFrom _ _ hpl]
    simp
  have hchunk_ne : (cmd ++ '\n' :: (output ++ '\n' :: prompt)) ≠ [] := by
    cases cmd with
    | nil => exact absurd rfl hcmd_ne
    | cons a l => simp
  have hchunk_empty : (cmd ++ '\n' :: (output ++ '\n' :: prompt)).isEmpty = false := by
    cases hch : cmd ++ '\n' :: (output ++ '\n' :: prompt) with
    | nil => exact absurd hch hchunk_ne
    | cons a l => rfl
  have hcmd_empty : cmd.isEmpty = false := by
    cases cmd with
    | nil => exact absurd rfl hcmd_ne
    | cons a l => rfl
  have hcol : collectUntilPrompt scriptOps (fuel + 1)
      ⟨[], [cmd ++ '\n' :: (output ++ '\n' :: prompt)], w ++ [cmd ++ ['\n']]⟩ [] =
      (⟨[], [], w ++ [cmd ++ ['\n']]⟩, cmd ++ '\n' :: (output ++ '\n' :: prompt), false) := by
    simp only [collectUntilPrompt, scriptOps, hchunk_empty, Bool.false_eq_true, if_false,
      List.nil_append, hps, if_true]
  have hsan : sanitize cmd (cmd ++ '\n' :: (output ++ '\n' :: prompt)) = output := by
    have hnoesc : ∀ x ∈ cmd ++ '\n' :: (output ++ '\n' :: prompt), x ≠ '\x1b' := by
      intro x hx
      simp only [List.mem_append, List.mem_cons] at hx
      rcases hx with hx | hx | hx | hx | hx
      · exact (hcmd_clean x hx).2.2
      · subst hx; decide
      · exact (hout_clean x hx).2
      · subst hx; decide
      · exact (hp_clean x hx).2.2
    have hfilter : ∀ x ∈ cmd ++ '\n' :: (output ++ '\n' :: prompt),
        (fun c : Char => decide (c ≠ '\r')) x = true := by
      intro x hx
      simp only [List.mem_append, List.mem_cons] at hx
      simp only [decide_eq_true_eq]
      rcases hx with hx | hx | hx | hx | hx
      · exact (hcmd_clean x hx).2.1
      · subst hx; decide
      · exact (hout_clean x hx).1
      · subst hx; decide
      · exact (hp_clean x hx).2.1
    have hsplit : splitNl (cmd ++ '\n' :: (output ++ '\n' :: prompt)) =
        cmd :: (splitNl output ++ [prompt]) := by
      rw [splitNl_append_nl, splitNl_append_nl]
      rw [splitNl_no_nl cmd (fun x hx => (hcmd_clean x hx).1)]
      rw [splitNl_no_nl prompt hp_nl]
      simp
    obtain ⟨init, last, hinit⟩ : ∃ init last, splitNl output = init ++ [last] := by
      rcases List.eq_nil_or_concat (splitNl output) with hnil | ⟨L, b, hLb⟩
      · exact absurd hnil (splitNl_ne_nil output)
      · exact ⟨L, b, by simpa using hLb⟩
    have hlastD : (splitNl output).getLastD [] = last := by
      rw [hinit]
      exact getLastD_append_singleton init last []
    have hlast_false : promptMatch (last ++ ['\n']) = false := by
      rw [← hlastD]
      exact hout_last
    unfold sanitize
    rw [stripAnsi_eq_self _ hnoesc]
    rw [List.filter_eq_self.mpr hfilter]
    simp only [hsplit]
    rw [if_pos hcmd_strip]
    rw [hinit]
    have hrev : ((init ++ [last]) ++ [prompt]).reverse = prompt :: last :: init.reverse := by
      simp
    rw [hrev]
    simp only [List.dropWhile_cons, hp_match, hlast_false, Bool.false_eq_true, if_true, if_false]
    have hrevrev : (last :: init.reverse).reverse = init ++ [last] := by simp
    rw [hrevrev, ← hinit, joinNl_splitNl]
    exact hout_strip
  unfold run
  simp only [hcmd_strip, hcmd_empty, Bool.false_eq_true, if_false]
  have hreset : scriptOps.resetInput ⟨st, [cmd ++ '\n' :: (output ++ '\n' :: prompt)], w⟩ =
      ⟨[], [cmd ++ '\n' :: (output ++ '\n' :: prompt)], w⟩ := rfl
  have hwrite : scriptOps.write
      ⟨[], [cmd ++ '\n' :: (output ++ '\n' :: prompt)], w⟩ (cmd ++ ['\n']) =
      ⟨[], [cmd ++ '\n' :: (output ++ '\n' :: prompt)], w ++ [cmd ++ ['\n']]⟩ := rfl
  rw [hreset, hwrite, hcol]
  simp only [Bool.false_and, Bool.false_eq_true, if_false, hsan]
  cases hperm : (containsSub "Operation not permitted".toList output ||
      containsSub "Permission denied".toList output)
  · simp [hperm]
  · simp [hperm]

/-- C1 counterexample: the claim's transport delivers the prompt line
newline-terminated, "<cmd>\n<output>\n<prompt>\n"; the trailing empty line
produced by the final newline stops the trailing-prompt removal (the empty
line does not match the prompt pattern), so the prompt line survives in
the returned text, which is not `<output>`. -/
theorem run_echo_counterexample :
    (run scriptOps (⟨some ⟨[], ["ls\na.txt\nroot@b:~# \n".toList], []⟩,
        "root".toList, []⟩ : ShellExecutor ScriptPort) "ls".toList 3).1.2 =
      "a.txt\nroot@b:~#".toList ∧
    "a.txt\nroot@b:~#".toList ≠ "a.txt".toList := by
  constructor
  · decide
  · decide

theorem run_echo_suppression_witness :
    ((∀ x ∈ "ls".toList, x ≠ '\n' ∧ x ≠ '\r' ∧ x ≠ '\x1b') ∧
     pyStrip "ls".toList = "ls".toList ∧
     (∀ x ∈ "a.txt".toList, x ≠ '\r' ∧ x ≠ '\x1b') ∧
     pyStrip "a.txt".toList = "a.txt".toList ∧
     promptMatch ((splitNl "a.txt".toList).getLastD [] ++ ['\n']) = false ∧
     (∀ x ∈ "root@b:~# ".toList, x ≠ '\n' ∧ x ≠ '\r' ∧ x ≠ '\x1b') ∧
     promptMatch ("root@b:~# ".toList ++ ['\n']) = true) ∧
    (run scriptOps
      (⟨some ⟨[], ["ls".toList ++ '\n' :: ("a.txt".toList ++ '\n' :: "root@b:~# ".toList)], []⟩,
        "root".toList, []⟩ : ShellExecutor ScriptPort) "ls".toList 3).1.2 = "a.txt".toList :=
  ⟨⟨by decide, by decide, by decide, by decide, by decide, by decide, by decide⟩,
   run_echo_suppression [] [] "root".toList [] "ls".toList "a.txt".toList
     "root@b:~# ".toList 2 (by decide) (by decide) (by decide) (by decide) (by decide)
     (by decide) (by decide) (by decide)⟩

/-- One poll iteration that detects the prompt: the nudge's chunk makes the
accumulated buffer match the prompt pattern, so the loop succeeds. -/
theorem ensureLoop_step_prompt {σ : Type} (P : PortOps σ) (u pw : Chars) (d m : Nat)
    (s s1 : σ) (buf c : Chars)
    (hn : nudge P d s = (c, s1))
    (hprompt : promptSearch (buf ++ c) = true) :
    ensureLoop P u pw d (m + 1) s buf = ((true, "Shell prompt detected.".toList), s1) := by
  simp only [ensureLoop, hn, hprompt, if_true]

/-- One poll iteration through the login-then-password path: no prompt yet,
the buffer shows the login pattern (username answered, drained), then the
password pattern (password answered, drained), and no activation banner. -/
theorem ensureLoop_step_login {σ : Type} (P : PortOps σ) (u pw : Chars) (d m : Nat)
    (s s1 s2 s3 s4 s5 : σ) (buf c cu cp : Chars)
    (hn : nudge P d s = (c, s1))
    (hprompt : promptSearch (buf ++ c) = false)
    (hlogin : loginSearch (buf ++ c) = true)
    (hwu : P.write s1 (u ++ ['\n']) = s2)
    (hdu : drain P d s2 = (cu, s3))
    (hpass : passSearch (buf ++ c ++ cu) = true)
    (hwp : P.write s3 (pw ++ ['\n']) = s4)
    (hdp : drain P d s4 = (cp, s5))
    (hact : activateSearch (buf ++ c ++ cu ++ cp) = false) :
    ensureLoop P u pw d (m + 1) s buf =
      ensureLoop P u pw d m s5 (buf ++ c ++ cu ++ cp) := by
  simp only [ensureLoop, hn, hprompt, hlogin, hwu, hdu, hpass, hwp, hdp, hact,
    Bool.false_eq_true, if_false, if_true]

/-- `ensure_shell` on an open session: the two wake nudges feed the poll
loop's initial buffer, and the loop's result is the call's result. -/
theorem ensureShell_open {σ : Type} (P : PortOps σ) (ex : ShellExecutor σ) (port : σ)
    (d fuel : Nat) (c1 c2 : Chars) (s1 s2 p3 : σ) (r : Bool × Chars)
    (hser : ex.ser = some port)
    (h1 : nudge P d port = (c1, s1)) (h2 : nudge P d s1 = (c2, s2))
    (hloop : ensureLoop P ex.username ex.password d fuel s2 (c1 ++ c2) = (r, p3)) :
    ensureShell P ex d fuel = (r, { ex with ser := some p3 }) := by
  unfold ensureShell
  rw [hser]
  simp only [h1, h2, hloop]

/-- C7: on the login-flow transport — a login-pattern line first, a
password-pattern line only after the username is written, a
prompt-matching line only after the password is written — `ensure_shell`
with any nonempty distinct credentials succeeds, for every overall budget
of at least two poll iterations; the complete write log is two wake
newlines, a poll newline, one username write, one password write, and one
final poll newline: the username and the password are each written exactly
once before success. -/
theorem ensureShell_login_flow (u pw : Chars) (hu : u ≠ []) (hpw : pw ≠ [])
    (hupw : u ≠ pw) (n : Nat) :
    ensureShell (loginSimOps u pw) (⟨some ⟨0, []⟩, u, pw⟩ : ShellExecutor LoginSim) 1 (n + 2) =
      ((true, "Shell prompt detected.".toList),
       ⟨some ⟨5, [['\n'], ['\n'], ['\n'], u ++ ['\n'], pw ++ ['\n'], ['\n']]⟩, u, pw⟩) ∧
    ([['\n'], ['\n'], ['\n'], u ++ ['\n'], pw ++ ['\n'], ['\n']].count (u ++ ['\n']) = 1 ∧
     [['\n'], ['\n'], ['\n'], u ++ ['\n'], pw ++ ['\n'], ['\n']].count (pw ++ ['\n']) = 1) := by
  have hne_u : (['\n'] : Chars) ≠ u ++ ['\n'] := by
    intro he
    have hl := congrArg List.length he
    simp at hl
    exact hu hl
  have hne_pw : (['\n'] : Chars) ≠ pw ++ ['\n'] := by
    intro he
    have hl := congrArg List.length he
    simp at hl
    exact hpw hl
  have hne_pwu : pw ++ ['\n'] ≠ u ++ ['\n'] := by
    intro he
    exact hupw (List.append_cancel_right he).symm
  have hne_upw : u ++ ['\n'] ≠ pw ++ ['\n'] := by
    intro he
    exact hupw (List.append_cancel_right he)
  have hw1 : ∀ w, (loginSimOps u pw).write ⟨1, w⟩ ['\n'] = ⟨1, w ++ [['\n']]⟩ := by
    intro w
    simp [loginSimOps, hne_u]
  have hr1 : ∀ w, (loginSimOps u pw).readSome ⟨1, w⟩ = ([], ⟨1, w⟩) := by
    intro w
    simp [loginSimOps]
  have hwu : ∀ w, (loginSimOps u pw).write ⟨1, w⟩ (u ++ ['\n']) = ⟨2, w ++ [u ++ ['\n']]⟩ := by
    intro w
    simp [loginSimOps]
  have hr2 : ∀ w, (loginSimOps u pw).readSome ⟨2, w⟩ = ("password:\n".toList, ⟨3, w⟩) := by
    intro w
    simp [loginSimOps]
  have hwp : ∀ w, (loginSimOps u pw).write ⟨3, w⟩ (pw ++ ['\n']) =
      ⟨4, w ++ [pw ++ ['\n']]⟩ := by
    intro w
    simp [loginSimOps]
  have hr4 : ∀ w, (loginSimOps u pw).readSome ⟨4, w⟩ =
      ("root@board:~# ".toList, ⟨5, w⟩) := by
    intro w
    simp [loginSimOps]
  have hw5 : ∀ w, (loginSimOps u pw).write ⟨5, w⟩ ['\n'] = ⟨5, w ++ [['\n']]⟩ := by
    intro w
    simp [loginSimOps]
  have hr5 : ∀ w, (loginSimOps u pw).readSome ⟨5, w⟩ = ([], ⟨5, w⟩) := by
    intro w
    simp [loginSimOps]
  have hnudge0 : nudge (loginSimOps u pw) 1 ⟨0, []⟩ = ("login:\n".toList, ⟨1, [['\n']]⟩) := by
    simp [nudge, drain, loginSimOps]
  have hnudge1 : ∀ w, nudge (loginSimOps u pw) 1 ⟨1, w⟩ = ([], ⟨1, w ++ [['\n']]⟩) := by
    intro w
    simp [nudge, drain, hw1 w, hr1 (w ++ [['\n']])]
  have hnudge5 : ∀ w, nudge (loginSimOps u pw) 1 ⟨5, w⟩ = ([], ⟨5, w ++ [['\n']]⟩) := by
    intro w
    simp [nudge, drain, hw5 w, hr5 (w ++ [['\n']])]
  have hdrain2 : ∀ w, drain (loginSimOps u pw) 1 ⟨2, w⟩ = ("password:\n".toList, ⟨3, w⟩) := by
    intro w
    simp [drain, hr2 w]
  have hdrain4 : ∀ w, drain (loginSimOps u pw) 1 ⟨4, w⟩ =
      ("root@board:~# ".toList, ⟨5, w⟩) := by
    intro w
    simp [drain, hr4 w]
  refine ⟨?_, ?_, ?_⟩
  · have hstep1 := ensureLoop_step_login (loginSimOps u pw) u pw 1 (n + 1)
      ⟨1, [['\n']] ++ [['\n']]⟩ ⟨1, [['\n']] ++ [['\n']] ++ [['\n']]⟩
      ⟨2, [['\n']] ++ [['\n']] ++ [['\n']] ++ [u ++ ['\n']]⟩
      ⟨3, [['\n']] ++ [['\n']] ++ [['\n']] ++ [u ++ ['\n']]⟩
      ⟨4, [['\n']] ++ [['\n']] ++ [['\n']] ++ [u ++ ['\n']] ++ [pw ++ ['\n']]⟩
      ⟨5, [['\n']] ++ [['\n']] ++ [['\n']] ++ [u ++ ['\n']] ++ [pw ++ ['\n']]⟩
      ("login:\n".toList ++ []) [] "password:\n".toList "root@board:~# ".toList
      (hnudge1 _) (by decide) (by decide) (hwu _) (hdrain2 _) (by decide) (hwp _)
      (hdrain4 _) (by decide)
    have hstep2 := ensureLoop_step_prompt (loginSimOps u pw) u pw 1 n
      ⟨5, [['\n']] ++ [['\n']] ++ [['\n']] ++ [u ++ ['\n']] ++ [pw ++ ['\n']]⟩
      ⟨5, [['\n']] ++ [['\n']] ++ [['\n']] ++ [u ++ ['\n']] ++ [pw ++ ['\n']] ++ [['\n']]⟩
      ("login:\n".toList ++ [] ++ [] ++ "password:\n".toList ++ "root@board:~# ".toList) []
      (hnudge5 _) (by decide)
    have hloop := hstep1.trans hstep2
    exact ensureShell_open (loginSimOps u pw) _ ⟨0, []⟩ 1 (n + 2) "login:\n".toList []
      ⟨1, [['\n']]⟩ ⟨1, [['\n']] ++ [['\n']]⟩ _ _ rfl hnudge0 (hnudge1 _) hloop
  · simp [List.count_cons, hne_u, hne_pwu]
  · simp [List.count_cons, hne_pw, hne_upw]

theorem ensureShell_login_flow_witness :
    ("root".toList ≠ ([] : Chars) ∧ "pw".toList ≠ ([] : Chars) ∧
     "root".toList ≠ "pw".toList) ∧
    (ensureShell (loginSimOps "root".toList "pw".toList)
        (⟨some ⟨0, []⟩, "root".toList, "pw".toList⟩ : ShellExecutor LoginSim) 1 (0 + 2) =
      ((true, "Shell prompt detected.".toList),
       ⟨some ⟨5, [['\n'], ['\n'], ['\n'], "root".toList ++ ['\n'], "pw".toList ++ ['\n'],
          ['\n']]⟩, "root".toList, "pw".toList⟩) ∧
     ([['\n'], ['\n'], ['\n'], "root".toList ++ ['\n'], "pw".toList ++ ['\n'],
        ['\n']].count ("root".toList ++ ['\n']) = 1 ∧
      [['\n'], ['\n'], ['\n'], "root".toList ++ ['\n'], "pw".toList ++ ['\n'],
        ['\n']].count ("pw".toList ++ ['\n']) = 1)) :=
  ⟨⟨by decide, by decide, by decide⟩,
   ensureShell_login_flow "root".toList "pw".toList (by decide) (by decide) (by decide) 0⟩

/-- On a stream port whose accumulated output never matches any of the four
patterns the poll loop reacts to, every iteration writes one nudge
newline, reads one chunk, takes no branch, and the loop runs its entire
budget before failing. -/
theorem ensureLoop_stream (f : Nat → Chars) (u pw : Chars) :
    ∀ (fuel i : Nat) (w : List Chars),
      (∀ k, k ≤ i + fuel → noPatterns (streamConcat f k) = true) →
      ensureLoop (streamOps f) u pw 1 fuel ⟨i, w⟩ (streamConcat f i) =
        ((false, "Prompt not detected (timeout).".toList),
         ⟨i + fuel, w ++ List.replicate fuel ['\n']⟩) := by
  intro fuel
  induction fuel with
  | zero =>
    intro i w H
    simp [ensureLoop]
  | succ m ih =>
    intro i w H
    have hcur : noPatterns (streamConcat f (i + 1)) = true := H (i + 1) (by omega)
    simp only [noPatterns, Bool.and_eq_true, Bool.not_eq_true'] at hcur
    obtain ⟨⟨⟨hprompt, hlogin⟩, hpass⟩, hact⟩ := hcur
    have hbuf : streamConcat f i ++ (f i ++ []) = streamConcat f (i + 1) := by
      simp [streamConcat]
    have hn : nudge (streamOps f) 1 (⟨i, w⟩ : StreamPort) =
        (f i ++ [], ⟨i + 1, w ++ [['\n']]⟩) := rfl
    simp only [ensureLoop, hn, hbuf, hprompt, hlogin, hpass, hact,
      Bool.false_eq_true, if_false]
    rw [ih (i + 1) (w ++ [['\n']]) (fun k hk => H k (by omega))]
    have h1 : i + 1 + m = i + (m + 1) := by omega
    have h2 : (w ++ [['\n']]) ++ List.replicate m ['\n'] =
        w ++ List.replicate (m + 1) ['\n'] := by
      simp [List.replicate_succ]
    rw [h1, h2]

/-- C8: a transport that never emits bytes matching the prompt, login or
password patterns nor an activation banner makes `ensure_shell` poll for
its entire overall budget — one nudge newline written per iteration, plus
the two wake nudges — and then return the bootstrap-timeout failure: it
neither fails immediately nor loops beyond the budget (the model is a
total function, so termination is by construction). -/
theorem ensureShell_stream_timeout (f : Nat → Chars) (u pw : Chars) (fuel : Nat)
    (H : ((List.range (fuel + 3)).all fun k => noPatterns (streamConcat f k)) = true) :
    ensureShell (streamOps f) (⟨some ⟨0, []⟩, u, pw⟩ : ShellExecutor StreamPort) 1 fuel =
      ((false, "Prompt not detected (timeout).".toList),
       ⟨some ⟨fuel + 2, List.replicate (fuel + 2) ['\n']⟩, u, pw⟩) := by
  have H' : ∀ k, k ≤ fuel + 2 → noPatterns (streamConcat f k) = true := by
    intro k hk
    exact List.all_eq_true.mp H k (List.mem_range.mpr (by omega))
  have hbuf : (f 0 ++ []) ++ (f 1 ++ []) = streamConcat f 2 := by
    simp [streamConcat]
  have hn0 : nudge (streamOps f) 1 (⟨0, []⟩ : StreamPort) = (f 0 ++ [], ⟨1, [['\n']]⟩) := rfl
  have hn1 : nudge (streamOps f) 1 (⟨1, [['\n']]⟩ : StreamPort) =
      (f 1 ++ [], ⟨2, [['\n'], ['\n']]⟩) := rfl
  simp only [ensureShell, hn0, hn1, hbuf]
  rw [ensureLoop_stream f u pw fuel 2 [['\n'], ['\n']] (fun k hk => H' k (by omega))]
  have h1 : 2 + fuel = fuel + 2 := by omega
  have h2 : [['\n'], ['\n']] ++ List.replicate fuel ['\n'] =
      List.replicate (fuel + 2) ['\n'] := by
    simp [List.replicate_succ]
  rw [h1, h2]

theorem ensureShell_stream_timeout_witness :
    ((List.range 5).all fun k => noPatterns (streamConcat (fun _ => "noise\n".toList) k)) = true ∧
    ensureShell (streamOps (fun _ => "noise\n".toList))
      (⟨some ⟨0, []⟩, "root".toList, []⟩ : ShellExecutor StreamPort) 1 2 =
      ((false, "Prompt not detected (timeout).".toList),
       ⟨some ⟨4, List.replicate 4 ['\n']⟩, "root".toList, []⟩) :=
  ⟨by decide, ensureShell_stream_timeout (fun _ => "noise\n".toList) "root".toList [] 2 (by decide)⟩

theorem searchAfterNl_no_nl (g : Chars → Bool) (s : Chars) (h : ∀ x ∈ s, x ≠ '\n') :
    searchAfterNl g s = false := by
  induction s with
  | nil => rfl
  | cons c rest ih =>
    have hc : c ≠ '\n' := h c (by simp)
    simp only [searchAfterNl, ih (fun x hx => h x (by simp [hx])), Bool.or_false]
    simp [hc]

theorem searchAfterNl_append_nl (g : Chars → Bool) (f r : Chars) (h : ∀ x ∈ f, x ≠ '\n') :
    searchAfterNl g (f ++ '\n' :: r) = (g r || searchAfterNl g r) := by
  induction f with
  | nil => simp [searchAfterNl]
  | cons c f' ih =>
    have hc : c ≠ '\n' := h c (by simp)
    simp only [List.cons_append, searchAfterNl, List.append_eq]
    rw [ih (fun x hx => h x (by simp [hx]))]
    simp [hc]

/-- Every string either has no newline (a single line) or splits at its first
newline, and `splitNl` follows that structure. -/
theorem splitNl_decomp (s : Chars) :
    ((∀ x ∈ s, x ≠ '\n') ∧ splitNl s = [s]) ∨
    (∃ f r, s = f ++ '\n' :: r ∧ (∀ x ∈ f, x ≠ '\n') ∧ splitNl s = f :: splitNl r) := by
  induction s with
  | nil => left; exact ⟨by simp, rfl⟩
  | cons c s' ih =>
    by_cases hc : c = '\n'
    · subst hc
      right
      exact ⟨[], s', rfl, by simp, by simp [splitNl]⟩
    · rcases ih with ⟨hn, hs⟩ | ⟨f, r, heq, hf, hs⟩
      · left
        refine ⟨?_, ?_⟩
        · intro x hx
          rcases List.mem_cons.mp hx with hx | hx
          · subst hx; exact hc
          · exact hn x hx
        · simp [splitNl, if_neg hc, hs]
      · right
        refine ⟨c :: f, r, by rw [heq]; rfl, ?_, ?_⟩
        · intro x hx
          rcases List.mem_cons.mp hx with hx | hx
          · subst hx; exact hc
          · exact hf x hx
        · simp only [splitNl, if_neg hc, hs]

/-- `re.search` with the `(?m)^`-anchored prompt pattern matches iff some line
of the buffer (in the Python `split("\n")` sense) matches it anchored. -/
theorem promptSearch_eq_any (s : Chars) :
    promptSearch s = (splitNl s).any promptLineFrom := by
  rcases splitNl_decomp s with ⟨hn, hs⟩ | ⟨f, r, heq, hf, hs⟩
  · rw [hs]
    unfold promptSearch lineSearch
    rw [searchAfterNl_no_nl promptLineFrom s hn]
    simp
  · have ihr : promptSearch r = (splitNl r).any promptLineFrom := promptSearch_eq_any r
    rw [hs, heq]
    unfold promptSearch lineSearch
    rw [promptLineFrom_append_nl f r hf, searchAfterNl_append_nl promptLineFrom f r hf]
    unfold promptSearch lineSearch at ihr
    rw [List.any_cons, ← ihr]
termination_by s.length
decreasing_by
  rw [heq]
  simp
  omega

theorem mem_splitNl_no_nl (s : Chars) :
    ∀ l ∈ splitNl s, ∀ x ∈ l, x ≠ '\n' := by
  rcases splitNl_decomp s with ⟨hn, hs⟩ | ⟨f, r, heq, hf, hs⟩
  · rw [hs]
    intro l hl
    simp at hl
    subst hl
    exact hn
  · rw [hs]
    intro l hl
    rcases List.mem_cons.mp hl with hl | hl
    · subst hl; exact hf
    · exact mem_splitNl_no_nl r l hl
termination_by s.length
decreasing_by
  rw [heq]
  simp
  omega

theorem promptTail_no_nl (l : Chars) (h : ∀ x ∈ l, x ≠ '\n') :
    promptTail l = l.all isPySpace := by
  induction l with
  | nil => rfl
  | cons c rest ih =>
    have hc : c ≠ '\n' := h c (by simp)
    simp only [promptTail, if_neg hc, List.all_cons]
    cases hsp : isPySpace c
    · rfl
    · simp [ih (fun x hx => h x (by simp [hx]))]

/-- The anchored prompt pattern on a newline-free line holds iff the line is
newline-and-CR-free text, then `#` or `$`, then only whitespace. -/
theorem promptLineFrom_iff (l : Chars) :
    (∀ x ∈ l, x ≠ '\n') →
    (promptLineFrom l = true ↔
      ∃ body c ws, l = body ++ c :: ws ∧ (∀ x ∈ body, x ≠ '\n' ∧ x ≠ '\r') ∧
        (c = '#' ∨ c = '$') ∧ (∀ x ∈ ws, isPySpace x = true)) := by
  induction l with
  | nil =>
    intro h
    constructor
    · intro hT
      exact absurd hT (by simp [promptLineFrom])
    · rintro ⟨body, c, ws, heq, -, -, -⟩
      exact absurd heq (by simp)
  | cons a l' ih =>
    intro h
    have ha_nl : a ≠ '\n' := h a (by simp)
    have h' : ∀ x ∈ l', x ≠ '\n' := fun x hx => h x (by simp [hx])
    constructor
    · intro hT
      simp only [promptLineFrom, Bool.or_eq_true, Bool.and_eq_true] at hT
      rcases hT with ⟨hpe, ht⟩ | ⟨⟨han, har⟩, hrec⟩
      · refine ⟨[], a, l', rfl, by simp, ?_, ?_⟩
        · simpa [isPromptEnd] using hpe
        · have hall : l'.all isPySpace = true := by
            rw [← promptTail_no_nl l' h']
            exact ht
          exact fun x hx => List.all_eq_true.mp hall x hx
      · obtain ⟨body, c, ws, heq, hb, hc, hw⟩ := (ih h').mp hrec
        refine ⟨a :: body, c, ws, by rw [heq]; rfl, ?_, hc, hw⟩
        intro x hx
        rcases List.mem_cons.mp hx with hx | hx
        · subst hx
          exact ⟨by simpa using han, by simpa using har⟩
        · exact hb x hx
    · rintro ⟨body, c, ws, heq, hb, hc, hw⟩
      cases body with
      | nil =>
        simp only [List.nil_append] at heq
        injection heq with h1 h2
        subst h1
        subst h2
        simp only [promptLineFrom, Bool.or_eq_true]
        left
        rw [Bool.and_eq_true]
        refine ⟨?_, ?_⟩
        · simp only [isPromptEnd]
          rcases hc with hc | hc <;> simp [hc]
        · rw [promptTail_no_nl _ h']
          exact List.all_eq_true.mpr hw
      | cons b0 body' =>
        simp only [List.cons_append] at heq
        injection heq with h1 h2
        subst h1
        simp only [promptLineFrom, Bool.or_eq_true]
        right
        have hl' : promptLineFrom l' = true := by
          refine (ih h').mpr ⟨body', c, ws, h2, ?_, hc, hw⟩
          exact fun x hx => hb x (by simp [hx])
        have hr : a ≠ '\r' := (hb a (by simp)).2
        simp [ha_nl, hr, hl']

/-- C6: the prompt pattern matches exactly the strings with a full line of
arbitrary non-newline (and non-CR) text ending in `#` or `$` followed only
by trailing whitespace (per-line anchoring in multiline mode); strings
ending in "root@board:~# " and "user$ " match, a string ending in
"#define FOO" does not. -/
theorem prompt_pattern_characterization :
    (∀ s : Chars, promptSearch s = true ↔
      ∃ l ∈ splitNl s, ∃ body c ws, l = body ++ c :: ws ∧
        (∀ x ∈ body, x ≠ '\n' ∧ x ≠ '\r') ∧ (c = '#' ∨ c = '$') ∧
        (∀ x ∈ ws, isPySpace x = true)) ∧
    promptSearch "echo hi\nroot@board:~# ".toList = true ∧
    promptSearch "user$ ".toList = true ∧
    promptSearch "int x\n#define FOO".toList = false := by
  refine ⟨?_, by decide, by decide, by decide⟩
  intro s
  rw [promptSearch_eq_any s, List.any_eq_true]
  constructor
  · rintro ⟨l, hl, hpl⟩
    exact ⟨l, hl, (promptLineFrom_iff l (mem_splitNl_no_nl s l hl)).mp hpl⟩
  · rintro ⟨l, hl, hdec⟩
    exact ⟨l, hl, (promptLineFrom_iff l (mem_splitNl_no_nl s l hl)).mpr hdec⟩

end Uart5
